import Mathlib

/-!
Verification of the HealthBench-BR evaluation pipeline core
(dataset pairing loader, response label parser, evaluation engine,
metrics aggregator) against its natural-language specification.

The Python source is shallowly embedded:
  - JSON blocks become the structure Bloco, with Option fields modelling
    dict.get with a default;
  - os.path.exists / json.load is modelled by a lookup function from paths
    to parsed block lists;
  - the asynchronous provider call is modelled as a pure function returning
    Except (an exception message or a response text); asyncio.gather
    preserves task order, so a chunk is modelled as a map in list order;
  - Python ints that can be negative (parallelism, limit) are Int;
  - the regex \x5cb(verdadeiro|falso)\x5cb with IGNORECASE is modelled by
    an explicit left-to-right scanner over the lowercased character list
    (finditer semantics: at each position try the alternatives in order,
    and on a match resume after it).  Word characters are modelled as
    ASCII alphanumerics or underscore and lowercasing as ASCII lowercasing
    (Python's re and str.lower are Unicode-aware; the two agree on the
    ASCII tokens being matched and on ASCII neighbourhoods).
-/

/-! ## Dataset loader (src/src/dataset/loader.py) -/

/-- One JSON source block.  A field is none when the key is absent from
the JSON object (Python bloco.get(key, default)). -/
structure Bloco where
  arquivo : Option String
  titulo : Option String
  perguntas : Option (List String)
deriving DecidableEq

/-- QAItem dataclass: one evaluable question. -/
structure QAItem where
  arquivo : String
  titulo : String
  pergunta : String
  esperado : String
  idx_local : Nat
deriving DecidableEq

/-- List concatenation map, used to model Python loops that extend an
accumulator list. -/
def concatMap (f : α → List β) : List α → List β
  | [] => []
  | a :: as => f a ++ concatMap f as

/-- The inner pairing loop of DatasetLoader.load_dataset:
for i in range(0, len(perguntas) - 1, 2) append the item at i with
esperado Verdadeiro and the item at i+1 with esperado Falso. -/
def pairItems (arquivo titulo : String) : List String → Nat → List QAItem
  | p1 :: p2 :: rest, i =>
      ⟨arquivo, titulo, p1, "Verdadeiro", i⟩ ::
      ⟨arquivo, titulo, p2, "Falso", i + 1⟩ :: pairItems arquivo titulo rest (i + 2)
  | _, _ => []

/-- Items produced from one block: bloco.get("arquivo", ""),
bloco.get("titulo", ""), bloco.get("perguntas", []). -/
def blockItems (b : Bloco) : List QAItem :=
  pairItems (b.arquivo.getD "") (b.titulo.getD "") (b.perguntas.getD []) 0

/-- The outer loop of load_dataset over all blocks, in block order. -/
def load_items : List Bloco → List QAItem
  | [] => []
  | b :: bs => blockItems b ++ load_items bs

/-- DatasetLoader.load_dataset: raise FileNotFoundError when the path does
not exist, otherwise parse and pair.  The filesystem is a lookup from
paths to parsed JSON block lists. -/
def load_dataset (fs : String → Option (List Bloco)) (path : String) :
    Except String (List QAItem) :=
  match fs path with
  | none => .error ("Arquivo não encontrado: " ++ path)
  | some data => .ok (load_items data)

theorem pairItems_length (a t : String) :
    ∀ (qs : List String) (i : Nat),
      (pairItems a t qs i).length = 2 * (qs.length / 2)
  | [], _ => by simp [pairItems]
  | [q], _ => by simp [pairItems]
  | q1 :: q2 :: rest, i => by
      have ih := pairItems_length a t rest (i + 2)
      simp [pairItems, ih]
      omega

theorem pairItems_get (a t : String) :
    ∀ (qs : List String) (k j : Nat), 2 * j + 1 < qs.length →
      (pairItems a t qs k).get? (2 * j) =
        (qs.get? (2 * j)).map (fun q => ⟨a, t, q, "Verdadeiro", k + 2 * j⟩) ∧
      (pairItems a t qs k).get? (2 * j + 1) =
        (qs.get? (2 * j + 1)).map (fun q => ⟨a, t, q, "Falso", k + 2 * j + 1⟩)
  | [], _, j, h => by exact absurd h (by simp)
  | [q], _, j, h => by
      exact absurd h (by simp only [List.length_singleton]; omega)
  | q1 :: q2 :: rest, k, 0, h => by
      simp [pairItems]
  | q1 :: q2 :: rest, k, j + 1, h => by
      have hb : 2 * j + 1 < rest.length := by
        simp only [List.length_cons] at h; omega
      have ih := pairItems_get a t rest (k + 2) j hb
      have e1 : 2 * (j + 1) = 2 * j + 1 + 1 := by omega
      rw [e1]
      simp only [pairItems, List.get?_cons_succ]
      have e2 : k + (2 * j + 1 + 1) = k + 2 + 2 * j := by omega
      rw [e2]
      exact ⟨ih.1, ih.2⟩

theorem pairItems_fields (a t : String) :
    ∀ (qs : List String) (k : Nat), ∀ item ∈ pairItems a t qs k,
      item.arquivo = a ∧ item.titulo = t
  | [], _ => by simp [pairItems]
  | [q], _ => by simp [pairItems]
  | q1 :: q2 :: rest, k => by
      intro item hm
      simp [pairItems] at hm
      rcases hm with h | h | h
      · subst h; exact ⟨rfl, rfl⟩
      · subst h; exact ⟨rfl, rfl⟩
      · exact pairItems_fields a t rest (k + 2) item h

theorem load_items_eq_concatMap (data : List Bloco) :
    load_items data = concatMap blockItems data := by
  induction data with
  | nil => rfl
  | cons b bs ih => simp [load_items, concatMap, ih]

/-- C1: the loader produces the flat item sequence in block order; within
each block the question list is consumed in consecutive pairs (i, i+1),
the even-offset item getting esperado Verdadeiro with idx_local i and the
odd-offset item esperado Falso with idx_local i+1; a question list of odd
length 2k+1 yields exactly 2k items (the last question is dropped), and a
list with fewer than two questions yields no items. -/
theorem C1_loader_pairing :
    (∀ data : List Bloco, load_items data = concatMap blockItems data) ∧
    (∀ (a t : String) (qs : List String) (i : Nat),
       (pairItems a t qs i).length = 2 * (qs.length / 2)) ∧
    (∀ (a t : String) (qs : List String) (j : Nat), 2 * j + 1 < qs.length →
       (pairItems a t qs 0).get? (2 * j) =
         (qs.get? (2 * j)).map (fun q => ⟨a, t, q, "Verdadeiro", 2 * j⟩) ∧
       (pairItems a t qs 0).get? (2 * j + 1) =
         (qs.get? (2 * j + 1)).map (fun q => ⟨a, t, q, "Falso", 2 * j + 1⟩)) ∧
    (∀ (a t : String) (qs : List String) (k : Nat),
       qs.length = 2 * k + 1 → (pairItems a t qs 0).length = 2 * k) ∧
    (∀ (a t : String) (qs : List String),
       qs.length < 2 → pairItems a t qs 0 = []) := by
  refine ⟨load_items_eq_concatMap, pairItems_length, ?_, ?_, ?_⟩
  · intro a t qs j h
    have := pairItems_get a t qs 0 j h
    simpa using this
  · intro a t qs k h
    rw [pairItems_length, h]
    omega
  · intro a t qs h
    match qs, h with
    | [], _ => rfl
    | [q], _ => rfl

/-- Closed instantiation of C1_loader_pairing: the end-to-end scenario
from the spec, one block with three questions yielding exactly two items. -/
theorem C1_loader_pairing_witness :
    (pairItems "doc1" "Cardio" ["Q1", "Q2", "Q3"] 0).get? 0 =
      some ⟨"doc1", "Cardio", "Q1", "Verdadeiro", 0⟩ ∧
    (pairItems "doc1" "Cardio" ["Q1", "Q2", "Q3"] 0).get? 1 =
      some ⟨"doc1", "Cardio", "Q2", "Falso", 1⟩ ∧
    (pairItems "doc1" "Cardio" ["Q1", "Q2", "Q3"] 0).length = 2 ∧
    pairItems "doc1" "Cardio" ["Q1"] 0 = [] := by
  have h := C1_loader_pairing
  refine ⟨?_, ?_, ?_, ?_⟩
  · have := (h.2.2.1 "doc1" "Cardio" ["Q1", "Q2", "Q3"] 0 (by decide)).1
    simpa using this
  · have := (h.2.2.1 "doc1" "Cardio" ["Q1", "Q2", "Q3"] 0 (by decide)).2
    simpa using this
  · have := h.2.2.2.1 "doc1" "Cardio" ["Q1", "Q2", "Q3"] 1 (by decide)
    simpa using this
  · exact h.2.2.2.2 "doc1" "Cardio" ["Q1"] (by decide)

/-! ## Response label parser (src/src/dataset/loader.py, ResponseParser)

The regex VER_REGEX matches a word-bounded, case-insensitive occurrence of
verdadeiro or falso; parse_label_from_response takes the last finditer
match.  finditer scans left to right, at each position trying the
alternatives in order, and resumes after the end of a match. -/

/-- ASCII model of a regex word character (\x5cw): alphanumeric or
underscore. -/
def isWordChar (c : Char) : Bool := c.isAlphanum || c == '_'

/-- Case folding of the scanned text (re.IGNORECASE, ASCII model). -/
def lowerChars (s : String) : List Char := s.data.map Char.toLower

/-- The true-token of VER_REGEX, lowercased. -/
def tvTok : List Char := "verdadeiro".data

/-- The false-token of VER_REGEX, lowercased. -/
def tfTok : List Char := "falso".data

/-- Word boundary after a candidate match: end of text or a non-word
character. -/
def boundaryAfter : List Char → Bool
  | [] => true
  | c :: _ => !(isWordChar c)

/-- Word boundary before a candidate match, given the preceding character
(none at the start of the text). -/
def boundaryBefore : Option Char → Bool
  | none => true
  | some c => !(isWordChar c)

/-- The token matches at the head of rest and is followed by a word
boundary. -/
def matchTok (tok rest : List Char) : Bool :=
  decide (rest.take tok.length = tok) && boundaryAfter (rest.drop tok.length)

/-- finditer scanner: prev is the character before the current position,
skip is the number of characters of a just-recognised match still to be
consumed (finditer resumes after a match).  Produces the match labels in
text order, true for the true-token. -/
def scanAux (prev : Option Char) (skip : Nat) : List Char → List Bool
  | [] => []
  | c :: rest =>
    match skip with
    | k + 1 => scanAux (some c) k rest
    | 0 =>
      if boundaryBefore prev && matchTok tvTok (c :: rest) then
        true :: scanAux (some c) (tvTok.length - 1) rest
      else if boundaryBefore prev && matchTok tfTok (c :: rest) then
        false :: scanAux (some c) (tfTok.length - 1) rest
      else
        scanAux (some c) 0 rest

/-- ResponseParser.parse_label_from_response: the label of the last match,
none when there is no match. -/
def parse_label_from_response (s : String) : Option String :=
  match (scanAux none 0 (lowerChars s)).getLast? with
  | none => none
  | some b => some (if b then "Verdadeiro" else "Falso")

/-! Declarative reading of the spec contract: the set of whole-word
occurrences, and the label of the one occurring last in the text. -/

/-- A whole-word occurrence of tok at position i of l, the boundary before
position 0 being judged against prev. -/
def occAtP (prev : Option Char) (l : List Char) (i : Nat) (tok : List Char) : Bool :=
  decide ((l.drop i).take tok.length = tok)
    && boundaryAfter (l.drop (i + tok.length))
    && (match i with
        | 0 => boundaryBefore prev
        | j + 1 =>
          match (l.drop j).head? with
          | some c => !(isWordChar c)
          | none => false)

/-- Which token, if any, has a whole-word occurrence at position i. -/
def occHereP (prev : Option Char) (l : List Char) (i : Nat) : Option Bool :=
  if occAtP prev l i tvTok then some true
  else if occAtP prev l i tfTok then some false
  else none

/-- All whole-word occurrences of the two tokens, in text order. -/
def occListP (prev : Option Char) (l : List Char) : List Bool :=
  (List.range l.length).filterMap (occHereP prev l)

/-- The label demanded by the spec: that of the last case-insensitive
whole-word occurrence of either token, none when no occurrence exists. -/
def lastOccLabel (s : String) : Option String :=
  ((occListP none (lowerChars s)).getLast?).map
    (fun b => if b then "Verdadeiro" else "Falso")

example : parse_label_from_response "blah blah Resposta: Falso" = some "Falso" := by decide
example : parse_label_from_response "Verdadeiro, mas... Resposta: Verdadeiro" = some "Verdadeiro" := by decide
example : parse_label_from_response "sem nenhuma palavra" = none := by decide
example : parse_label_from_response "" = none := by decide
example : parse_label_from_response "Verdadeiramente" = none := by decide
example : parse_label_from_response "verdadeiros" = none := by decide
example : parse_label_from_response "FALSO e verdadeiro" = some "Verdadeiro" := by decide
example : parse_label_from_response "verdadeirofalso" = none := by decide
example : lastOccLabel "FALSO e verdadeiro" = some "Verdadeiro" := by decide
example : lastOccLabel "verdadeirofalso" = none := by decide
example : lastOccLabel "x falso." = some "Falso" := by decide

/-- isWordChar lifted to the optional preceding character. -/
def isWordCharOpt : Option Char → Bool
  | none => false
  | some c => isWordChar c

/-- The character preceding the position reached after consuming a list of
characters, starting from prev. -/
def prevSkip (prev : Option Char) : List Char → Option Char
  | [] => prev
  | c :: cs => prevSkip (some c) cs

theorem occAtP_zero (prev : Option Char) (l tok : List Char) :
    occAtP prev l 0 tok = (boundaryBefore prev && matchTok tok l) := by
  cases hb : boundaryBefore prev <;>
    cases hd : decide (l.take tok.length = tok) <;>
      cases ha : boundaryAfter (l.drop tok.length) <;>
        simp [occAtP, matchTok, hb, hd, ha]

theorem occAtP_succ (prev : Option Char) (c : Char) (rest : List Char)
    (j : Nat) (tok : List Char) :
    occAtP prev (c :: rest) (j + 1) tok = occAtP (some c) rest j tok := by
  have e : j + 1 + tok.length = j + tok.length + 1 := by omega
  cases j with
  | zero =>
      simp [occAtP, e, boundaryBefore]
  | succ j' =>
      simp [occAtP, e]

theorem occHereP_succ (prev : Option Char) (c : Char) (rest : List Char) (j : Nat) :
    occHereP prev (c :: rest) (j + 1) = occHereP (some c) rest j := by
  simp [occHereP, occAtP_succ]

theorem occListP_cons (prev : Option Char) (c : Char) (rest : List Char) :
    occListP prev (c :: rest) =
      (occHereP prev (c :: rest) 0).toList ++ occListP (some c) rest := by
  unfold occListP
  rw [List.length_cons, List.range_succ_eq_map, List.filterMap_cons,
    List.filterMap_map]
  have hf : (occHereP prev (c :: rest)) ∘ Nat.succ = occHereP (some c) rest := by
    funext j
    exact occHereP_succ prev c rest j
  rw [hf]
  cases h0 : occHereP prev (c :: rest) 0 <;> simp [h0]

theorem scanAux_skip : ∀ (k : Nat) (prev : Option Char) (rest : List Char),
    scanAux prev k rest = scanAux (prevSkip prev (rest.take k)) 0 (rest.drop k)
  | 0, prev, rest => by simp [prevSkip]
  | k + 1, prev, [] => by simp [scanAux, prevSkip]
  | k + 1, prev, c :: rest => by
      simpa [scanAux, prevSkip] using scanAux_skip k (some c) rest

theorem occListP_skip : ∀ (k : Nat) (prev : Option Char) (rest : List Char),
    isWordCharOpt prev = true →
    (∀ c ∈ rest.take k, isWordChar c = true) →
    occListP prev rest = occListP (prevSkip prev (rest.take k)) (rest.drop k)
  | 0, prev, rest, _, _ => by simp [prevSkip]
  | k + 1, prev, [], _, _ => by simp [occListP, prevSkip]
  | k + 1, prev, c :: rest, hprev, hword => by
      have hb : boundaryBefore prev = false := by
        cases prev with
        | none => simp [isWordCharOpt] at hprev
        | some c0 => simp [boundaryBefore, isWordCharOpt.eq_def] at hprev ⊢; exact hprev
      have h0 : occHereP prev (c :: rest) 0 = none := by
        simp [occHereP, occAtP_zero, hb]
      have hcw : isWordChar c = true := by
        apply hword
        simp [List.take_succ_cons]
      have ih := occListP_skip k (some c) rest
        (by simpa [isWordCharOpt] using hcw)
        (fun d hd => hword d (by simp [List.take_succ_cons]; exact Or.inr hd))
      rw [occListP_cons, h0]
      simpa [prevSkip, List.take_succ_cons, List.drop_succ_cons] using ih

/-- Tail of the true-token after its first character. -/
def tvTail : List Char := "erdadeiro".data

/-- Tail of the false-token after its first character. -/
def tfTail : List Char := "also".data

theorem take_tok_facts (t : Char) (tl : List Char) (c : Char) (rest : List Char)
    (h : (c :: rest).take (t :: tl).length = t :: tl) :
    c = t ∧ rest.take tl.length = tl := by
  simp only [List.length_cons, List.take_succ_cons] at h
  injection h with h1 h2
  exact ⟨h1, h2⟩

theorem scanAux_eq_occListP :
    ∀ (n : Nat) (rest : List Char) (prev : Option Char),
      rest.length ≤ n → scanAux prev 0 rest = occListP prev rest
  | _, [], _, _ => by simp [scanAux, occListP]
  | 0, c :: rest, _, h => by simp at h
  | n + 1, c :: rest, prev, h => by
      have hlen : rest.length ≤ n := by
        simp only [List.length_cons] at h; omega
      by_cases htv : (boundaryBefore prev && matchTok tvTok (c :: rest)) = true
      · have hmt : matchTok tvTok (c :: rest) = true :=
          ((Bool.and_eq_true _ _).mp htv).2
        have htake : (c :: rest).take tvTok.length = tvTok := by
          have := ((Bool.and_eq_true _ _).mp hmt).1
          exact of_decide_eq_true this
        rw [(by decide : tvTok = 'v' :: tvTail)] at htake
        obtain ⟨hc, htail⟩ := take_tok_facts 'v' tvTail c rest htake
        subst hc
        have hskiplen : tvTok.length - 1 = tvTail.length := by decide
        have hdroplen : (rest.drop tvTail.length).length ≤ n := by
          simp only [List.length_drop]; omega
        have hwords : ∀ d ∈ rest.take tvTail.length, isWordChar d = true := by
          rw [htail]; decide
        have hocc0 : occHereP prev ('v' :: rest) 0 = some true := by
          simp [occHereP, occAtP_zero, htv]
        calc scanAux prev 0 ('v' :: rest)
            = true :: scanAux (some 'v') (tvTok.length - 1) rest := by
              simp only [scanAux, htv, if_true]
          _ = true :: scanAux (prevSkip (some 'v') (rest.take tvTail.length)) 0
                (rest.drop tvTail.length) := by
              rw [hskiplen, scanAux_skip]
          _ = true :: occListP (prevSkip (some 'v') (rest.take tvTail.length))
                (rest.drop tvTail.length) := by
              rw [scanAux_eq_occListP n (rest.drop tvTail.length) _ hdroplen]
          _ = true :: occListP (some 'v') rest := by
              rw [← occListP_skip tvTail.length (some 'v') rest (by decide) hwords]
          _ = occListP prev ('v' :: rest) := by
              rw [occListP_cons, hocc0]; rfl
      · by_cases htf : (boundaryBefore prev && matchTok tfTok (c :: rest)) = true
        · have hmt : matchTok tfTok (c :: rest) = true :=
            ((Bool.and_eq_true _ _).mp htf).2
          have htake : (c :: rest).take tfTok.length = tfTok := by
            have := ((Bool.and_eq_true _ _).mp hmt).1
            exact of_decide_eq_true this
          rw [(by decide : tfTok = 'f' :: tfTail)] at htake
          obtain ⟨hc, htail⟩ := take_tok_facts 'f' tfTail c rest htake
          subst hc
          have hskiplen : tfTok.length - 1 = tfTail.length := by decide
          have hdroplen : (rest.drop tfTail.length).length ≤ n := by
            simp only [List.length_drop]; omega
          have hwords : ∀ d ∈ rest.take tfTail.length, isWordChar d = true := by
            rw [htail]; decide
          have hocc0 : occHereP prev ('f' :: rest) 0 = some false := by
            have hav : occAtP prev ('f' :: rest) 0 tvTok = false := by
              rw [occAtP_zero]
              exact Bool.not_eq_true _ ▸ (by simpa using htv)
            simp [occHereP, occAtP_zero, hav, htf]
          calc scanAux prev 0 ('f' :: rest)
              = false :: scanAux (some 'f') (tfTok.length - 1) rest := by
                simp only [scanAux, htv, htf, if_true]
                simp [htv]
            _ = false :: scanAux (prevSkip (some 'f') (rest.take tfTail.length)) 0
                  (rest.drop tfTail.length) := by
                rw [hskiplen, scanAux_skip]
            _ = false :: occListP (prevSkip (some 'f') (rest.take tfTail.length))
                  (rest.drop tfTail.length) := by
                rw [scanAux_eq_occListP n (rest.drop tfTail.length) _ hdroplen]
            _ = false :: occListP (some 'f') rest := by
                rw [← occListP_skip tfTail.length (some 'f') rest (by decide) hwords]
            _ = occListP prev ('f' :: rest) := by
                rw [occListP_cons, hocc0]; rfl
        · have hocc0 : occHereP prev (c :: rest) 0 = none := by
            simp only [occHereP, occAtP_zero]
            simp [htv, htf]
          calc scanAux prev 0 (c :: rest)
              = scanAux (some c) 0 rest := by
                simp only [scanAux]
                simp [htv, htf]
            _ = occListP (some c) rest :=
                scanAux_eq_occListP n rest (some c) hlen
            _ = occListP prev (c :: rest) := by
              rw [occListP_cons, hocc0]; rfl

/-- C2: for every input text the parser returns the label of the last
case-insensitive whole-word occurrence of verdadeiro or falso (Verdadeiro
when that occurrence is the true-token, Falso when it is the false-token),
and returns none (Unknown) when no such occurrence exists, including for
the empty string; occurrences embedded inside longer words do not count
(verdadeiros, Verdadeiramente). -/
theorem C2_parser_last_occurrence :
    (∀ s : String, parse_label_from_response s = lastOccLabel s) ∧
    parse_label_from_response "" = none ∧
    parse_label_from_response "Verdadeiramente" = none ∧
    parse_label_from_response "verdadeiros" = none ∧
    parse_label_from_response "Resposta: FALSO" = some "Falso" ∧
    parse_label_from_response "Falso? Nao. Resposta: Verdadeiro" = some "Verdadeiro" := by
  refine ⟨?_, by decide, by decide, by decide, by decide, by decide⟩
  intro s
  unfold parse_label_from_response lastOccLabel
  rw [scanAux_eq_occListP (lowerChars s).length (lowerChars s) none le_rfl]
  cases (occListP none (lowerChars s)).getLast? <;> simp

/-! ## Evaluation engine (src/src/evaluation/evaluator.py)

The provider port (BaseLLMProvider.ainvoke) is modelled as a pure function
from (system prompt, user prompt) to Except: error carries the rendered
exception message, ok carries the response text.  asyncio.gather returns
results in task order, so a chunk fan-out is a map in list order. -/

/-- The fixed system prompt (its content is passed through to the
provider and never inspected by the core; the quoted fragments of the
Python literal are rendered unquoted here). -/
def SYSTEM_PROMPT : String :=
  "Você está sendo avaliado em um benchmark de VERDADEIRO ou FALSO (pt-BR).\nExplique brevemente se quiser, MAS OBRIGATORIAMENTE termine a mensagem com uma linha final EXATA:\nResposta: Verdadeiro\nou\nResposta: Falso\nA linha Resposta: DEVE aparecer exatamente assim, com Verdadeiro ou Falso no fim."

/-- A provider: system prompt and user prompt to response text or an
exception message. -/
def Provider : Type := String → String → Except String String

/-- EvaluationResult dataclass (src/src/reports/generator.py). pred is
none for the Unknown outcome (Python None). -/
structure EvaluationResult where
  arquivo : String
  titulo : String
  idx_local : Nat
  pergunta : String
  esperado : String
  pred : Option String
  correta : Bool
  resposta_bruta : String
deriving DecidableEq

/-- ResponseParser.validate_response: parse then compare with the
expected label; a missing label is always incorrect. -/
def validate_response (response expected : String) : Option String × Bool :=
  let predicted := parse_label_from_response response
  (predicted,
    match predicted with
    | some p => p == expected
    | none => false)

/-- Evaluator.evaluate_single: call the provider; on an exception
substitute the diagnostic marker string and the Unknown label, otherwise
parse and validate the response. -/
def evaluate_single (provider : Provider) (item : QAItem) : EvaluationResult :=
  match provider SYSTEM_PROMPT item.pergunta with
  | .error e =>
    { arquivo := item.arquivo, titulo := item.titulo, idx_local := item.idx_local,
      pergunta := item.pergunta, esperado := item.esperado,
      pred := none, correta := false,
      resposta_bruta := "[ERRO NA CHAMADA]: " ++ e }
  | .ok response =>
    { arquivo := item.arquivo, titulo := item.titulo, idx_local := item.idx_local,
      pergunta := item.pergunta, esperado := item.esperado,
      pred := (validate_response response item.esperado).1,
      correta := (validate_response response item.esperado).2,
      resposta_bruta := response }

/-- Chunk start offsets 0, s, 2s, ... below n (Python range(0, n, s) for a
positive step s, in closed form). -/
def chunkStarts (n s : Nat) : List Nat :=
  (List.range ((n + s - 1) / s)).map (fun j => j * s)

/-- Python range(0, n, step): a zero step raises ValueError, a negative
step yields no indices (start 0 is already at or past stop n ≥ 0). -/
def pyRange0 (n : Nat) (step : Int) : Except String (List Nat) :=
  if step = 0 then .error "range() arg 3 must not be zero"
  else if step < 0 then .ok []
  else .ok (chunkStarts n step.toNat)

/-- Evaluator.evaluate_batch: iterate chunk starts from
range(0, len(items), parallelism), evaluate the chunk
items[i : i + parallelism] concurrently (order-preserving), and extend the
result list. -/
def evaluate_batch (provider : Provider) (parallelism : Int)
    (items : List QAItem) : Except String (List EvaluationResult) :=
  match pyRange0 items.length parallelism with
  | .error e => .error e
  | .ok starts =>
    .ok (concatMap
      (fun i => ((items.drop i).take parallelism.toNat).map (evaluate_single provider))
      starts)

/-- Python items[:limit] for an arbitrary Int limit. -/
def pySliceTo (l : Int) (xs : List α) : List α :=
  if 0 ≤ l then xs.take l.toNat else xs.take (xs.length - l.natAbs)

/-- The truthiness test if limit: items = items[:limit] — None and 0 both
leave the sequence unchanged. -/
def applyLimit (limit : Option Int) (items : List QAItem) : List QAItem :=
  match limit with
  | none => items
  | some l => if l = 0 then items else pySliceTo l items

/-- Evaluator.evaluate: apply the optional limit, return an empty result
list for an empty sequence without any provider call, otherwise run
evaluate_batch. -/
def evaluate (provider : Provider) (parallelism : Int)
    (items : List QAItem) (limit : Option Int) :
    Except String (List EvaluationResult) :=
  if (applyLimit limit items).length = 0 then .ok []
  else evaluate_batch provider parallelism (applyLimit limit items)

theorem concatMap_map (f : β → List γ) (g : α → β) :
    ∀ xs : List α, concatMap f (xs.map g) = concatMap (fun x => f (g x)) xs
  | [] => rfl
  | x :: xs => by simp [concatMap, concatMap_map f g xs]

theorem concatMap_map_inner (g : α → List β) (F : β → γ) :
    ∀ xs : List α,
      concatMap (fun x => (g x).map F) xs = (concatMap g xs).map F
  | [] => rfl
  | x :: xs => by simp [concatMap, concatMap_map_inner g F xs]

theorem chunkCount_succ (n s : Nat) (hs : 0 < s) (hn : 0 < n) :
    (n + s - 1) / s = (n - s + s - 1) / s + 1 := by
  rcases le_or_lt n s with hle | hlt
  · have h1 : n + s - 1 = (n - 1) + s := by omega
    have h2 : n - s = 0 := by omega
    rw [h1, Nat.add_div_right _ hs, Nat.div_eq_of_lt (by omega : n - 1 < s), h2]
    rw [Nat.div_eq_of_lt (by omega : 0 + s - 1 < s)]
  · have h1 : n + s - 1 = (n - s + s - 1) + s := by omega
    rw [h1, Nat.add_div_right _ hs]

theorem chunkStarts_zero (s : Nat) (hs : 0 < s) : chunkStarts 0 s = [] := by
  unfold chunkStarts
  rw [Nat.div_eq_of_lt (by omega : 0 + s - 1 < s)]
  rfl

theorem chunkStarts_pos (n s : Nat) (hs : 0 < s) (hn : 0 < n) :
    chunkStarts n s = 0 :: (chunkStarts (n - s) s).map (fun i => i + s) := by
  unfold chunkStarts
  rw [chunkCount_succ n s hs hn, List.range_succ_eq_map]
  simp [List.map_map, Function.comp, Nat.succ_mul]

theorem chunks_join_aux (s : Nat) (hs : 0 < s) :
    ∀ (n : Nat) (l : List α), l.length ≤ n →
      concatMap (fun i => (l.drop i).take s) (chunkStarts l.length s) = l := by
  intro n
  induction n with
  | zero =>
    intro l hl
    have h0 : l = [] := List.length_eq_zero.mp (by omega)
    subst h0
    rw [List.length_nil, chunkStarts_zero s hs]
    rfl
  | succ n ih =>
    intro l hl
    by_cases h0 : l.length = 0
    · have h0 : l = [] := List.length_eq_zero.mp h0
      subst h0
      rw [List.length_nil, chunkStarts_zero s hs]
      rfl
    · rw [chunkStarts_pos l.length s hs (by omega)]
      show (l.drop 0).take s ++ _ = l
      rw [List.drop_zero, concatMap_map]
      have harg :
          concatMap (fun x => (l.drop (x + s)).take s) (chunkStarts (l.length - s) s)
            = concatMap (fun i => ((l.drop s).drop i).take s)
                (chunkStarts ((l.drop s).length) s) := by
        rw [List.length_drop]
        apply congrArg (fun f => concatMap f (chunkStarts (l.length - s) s))
        funext i
        rw [List.drop_drop, Nat.add_comm i s]
      rw [harg, ih (l.drop s) (by simp only [List.length_drop]; omega)]
      exact List.take_append_drop s l

theorem chunks_join (s : Nat) (hs : 0 < s) (l : List α) :
    concatMap (fun i => (l.drop i).take s) (chunkStarts l.length s) = l :=
  chunks_join_aux s hs l.length l le_rfl

theorem evaluate_batch_pos (provider : Provider) (p : Int) (items : List QAItem)
    (hp : 1 ≤ p) :
    evaluate_batch provider p items = .ok (items.map (evaluate_single provider)) := by
  have hne : ¬ p = 0 := by omega
  have hneg : ¬ p < 0 := by omega
  have hpt : 0 < p.toNat := by omega
  have hrange : pyRange0 items.length p = .ok (chunkStarts items.length p.toNat) := by
    unfold pyRange0
    rw [if_neg hne, if_neg hneg]
  unfold evaluate_batch
  rw [hrange]
  show Except.ok (concatMap
      (fun i => ((items.drop i).take p.toNat).map (evaluate_single provider))
      (chunkStarts items.length p.toNat)) = _
  rw [concatMap_map_inner (fun i => (items.drop i).take p.toNat)
    (evaluate_single provider) (chunkStarts items.length p.toNat),
    chunks_join p.toNat hpt items]

deriving instance DecidableEq for Except

/-- A provider stub that fails on the question Q1 and answers every other
question. -/
def failProvider : Provider := fun _ q =>
  if q = "Q1" then .error "boom" else .ok "Resposta: Verdadeiro"

/-- A provider stub that always answers. -/
def okProvider : Provider := fun _ _ => .ok "Resposta: Verdadeiro"

/-- A three-item input sequence for concrete instantiations. -/
def wItems : List QAItem :=
  [⟨"d", "t", "Q0", "Verdadeiro", 0⟩, ⟨"d", "t", "Q1", "Falso", 1⟩,
   ⟨"d", "t", "Q2", "Verdadeiro", 2⟩]

/-- C3: for every provider (including ones whose calls fail on some items)
and chunk size at least 1, evaluate_batch returns exactly one
EvaluationResult per item, in input order (it equals the in-order map of
evaluate_single); an item whose call failed gets pred none (Unknown),
correta false and the diagnostic marker string in resposta_bruta, while an
item whose call succeeded carries its own response — a failure is an
isolated result, never a dropped sibling or an aborted run. -/
theorem C3_failure_isolation (provider : Provider) (p : Int)
    (items : List QAItem) (hp : 1 ≤ p) :
    evaluate_batch provider p items = .ok (items.map (evaluate_single provider)) ∧
    (items.map (evaluate_single provider)).length = items.length ∧
    (∀ item ∈ items,
      (∀ e, provider SYSTEM_PROMPT item.pergunta = .error e →
        (evaluate_single provider item).pred = none ∧
        (evaluate_single provider item).correta = false ∧
        (evaluate_single provider item).resposta_bruta = "[ERRO NA CHAMADA]: " ++ e) ∧
      (∀ r, provider SYSTEM_PROMPT item.pergunta = .ok r →
        (evaluate_single provider item).resposta_bruta = r ∧
        (evaluate_single provider item).pred = parse_label_from_response r ∧
        (evaluate_single provider item).correta = (validate_response r item.esperado).2)) := by
  refine ⟨evaluate_batch_pos provider p items hp, items.length_map _, ?_⟩
  intro item _
  constructor
  · intro e he
    simp [evaluate_single, he]
  · intro r hr
    simp [evaluate_single, hr, validate_response]

/-- Closed instantiation of C3_failure_isolation with a stub provider
failing on the middle of three items under parallelism 2. -/
theorem C3_failure_isolation_witness :
    evaluate_batch failProvider 2 wItems =
      .ok (wItems.map (evaluate_single failProvider)) ∧
    (evaluate_single failProvider ⟨"d", "t", "Q1", "Falso", 1⟩).pred = none ∧
    (evaluate_single failProvider ⟨"d", "t", "Q1", "Falso", 1⟩).resposta_bruta =
      "[ERRO NA CHAMADA]: boom" ∧
    (evaluate_single failProvider ⟨"d", "t", "Q0", "Verdadeiro", 0⟩).resposta_bruta =
      "Resposta: Verdadeiro" := by
  have h := C3_failure_isolation failProvider 2 wItems (by decide)
  have h1 := (h.2.2 ⟨"d", "t", "Q1", "Falso", 1⟩ (by decide)).1 "boom" (by decide)
  have h2 := (h.2.2 ⟨"d", "t", "Q0", "Verdadeiro", 0⟩ (by decide)).2
    "Resposta: Verdadeiro" (by decide)
  exact ⟨h.1, h1.1, h1.2.2, h2.1⟩

/-- C4 counterexample: the Evaluator does not clamp parallelism values
below 1.  With parallelism 0 the chunking loop raises (Python
range(0, n, 0) is a ValueError), and with a negative parallelism the loop
body never runs, so a non-empty input yields an empty result sequence —
neither behaves like chunk size 1 as the claim states. -/
theorem C4_no_clamping_counterexample :
    evaluate_batch okProvider 0 wItems = .error "range() arg 3 must not be zero" ∧
    evaluate_batch okProvider (-1) wItems = .ok [] := by
  constructor <;> rfl

/-- C4 (amended): for p at least 1 the engine partitions the sequence into
consecutive chunks of size p (the chunk starts are 0, p, 2p, ... and the
chunks reassemble the input); values below 1 are NOT clamped: p = 0 makes
the run fail with a range error, and p below 0 produces no chunks at all,
so the result sequence is empty. -/
theorem C4_chunking (provider : Provider) (p : Int) (items : List QAItem) :
    (1 ≤ p →
      evaluate_batch provider p items =
        .ok ((concatMap (fun i => (items.drop i).take p.toNat)
          (chunkStarts items.length p.toNat)).map (evaluate_single provider)) ∧
      concatMap (fun i => (items.drop i).take p.toNat)
        (chunkStarts items.length p.toNat) = items) ∧
    (p = 0 → evaluate_batch provider p items = .error "range() arg 3 must not be zero") ∧
    (p < 0 → evaluate_batch provider p items = .ok []) := by
  refine ⟨?_, ?_, ?_⟩
  · intro hp
    have hj := chunks_join p.toNat (by omega) items
    refine ⟨?_, hj⟩
    rw [evaluate_batch_pos provider p items hp, hj]
  · intro h0
    subst h0
    rfl
  · intro hneg
    have hne : ¬ p = 0 := by omega
    unfold evaluate_batch pyRange0
    rw [if_neg hne, if_pos hneg]
    rfl

/-- Closed instantiation of C4_chunking: chunk size 2 over three items. -/
theorem C4_chunking_witness :
    concatMap (fun i => (wItems.drop i).take (2 : Int).toNat)
      (chunkStarts wItems.length (2 : Int).toNat) = wItems :=
  ((C4_chunking okProvider 2 wItems).1 (by decide)).2

/-- C5 counterexample: limit 0 is NOT an empty run.  Python
if limit: items = items[:limit] treats 0 as falsy, so a limit of 0 leaves
the sequence untouched and all items are evaluated (the provider is
contacted), contradicting the claim that limit 0 yields an empty result
sequence with no provider call. -/
theorem C5_zero_limit_counterexample :
    evaluate okProvider 1 wItems (some 0) =
      .ok (wItems.map (evaluate_single okProvider)) ∧
    wItems.map (evaluate_single okProvider) ≠ ([] : List EvaluationResult) := by
  constructor
  · show evaluate_batch okProvider 1 wItems = _
    exact evaluate_batch_pos okProvider 1 wItems (by decide)
  · simp [wItems]

/-- C5 (amended): for a limit L at least 1 the engine evaluates exactly
the first min(L, length) items; a limit of 0 is treated as no limit at all
(the sequence is left untouched), not as an empty run; and whenever the
sequence is empty after the limit is applied the engine returns an empty
result sequence for every provider (no provider call can influence it). -/
theorem C5_limit (provider : Provider) (p L : Int) (items : List QAItem)
    (hp : 1 ≤ p) :
    (1 ≤ L → evaluate provider p items (some L) =
      .ok ((items.take L.toNat).map (evaluate_single provider))) ∧
    applyLimit (some 0) items = items ∧
    (∀ lim, applyLimit lim items = [] → evaluate provider p items lim = .ok []) ∧
    evaluate provider p [] (some 0) = .ok [] := by
  refine ⟨?_, ?_, ?_, rfl⟩
  · intro hL
    have hkept : applyLimit (some L) items = items.take L.toNat := by
      show (if L = 0 then items else pySliceTo L items) = _
      rw [if_neg (by omega : ¬ L = 0)]
      unfold pySliceTo
      rw [if_pos (by omega : (0 : Int) ≤ L)]
    unfold evaluate
    rw [hkept]
    by_cases hz : (items.take L.toNat).length = 0
    · rw [if_pos hz, List.length_eq_zero.mp hz]
      rfl
    · rw [if_neg hz, evaluate_batch_pos provider p _ hp]
  · show (if (0 : Int) = 0 then items else pySliceTo 0 items) = _
    rw [if_pos rfl]
  · intro lim hempty
    unfold evaluate
    rw [hempty]
    rfl

/-- Closed instantiation of C5_limit: limit 2 keeps the first two of three
items. -/
theorem C5_limit_witness :
    evaluate okProvider 1 wItems (some 2) =
      .ok ((wItems.take (2 : Int).toNat).map (evaluate_single okProvider)) :=
  (C5_limit okProvider 1 2 wItems (by decide)).1 (by decide)

/-- C6: a result is correct exactly when the predicted label equals the
expected one; an Unknown prediction (no parseable token, or a failed
provider call) is never correct. -/
theorem C6_is_correct_iff (response expected : String) :
    ((validate_response response expected).2 = true ↔
      (validate_response response expected).1 = some expected) ∧
    ((validate_response response expected).1 = none →
      (validate_response response expected).2 = false) ∧
    (∀ (provider : Provider) (item : QAItem) (e : String),
      provider SYSTEM_PROMPT item.pergunta = .error e →
      (evaluate_single provider item).pred = none ∧
      (evaluate_single provider item).correta = false) := by
  refine ⟨?_, ?_, ?_⟩
  · unfold validate_response
    cases h : parse_label_from_response response with
    | none => simp
    | some p => simp [beq_iff_eq]
  · unfold validate_response
    cases h : parse_label_from_response response with
    | none => simp
    | some p => simp
  · intro provider item e he
    simp [evaluate_single, he]

/-- Closed instantiation of C6_is_correct_iff: a correct Falso answer is
predicted as Falso, and an unparseable answer is incorrect. -/
theorem C6_is_correct_iff_witness :
    (validate_response "Resposta: Falso" "Falso").1 = some "Falso" ∧
    (validate_response "tanto faz" "Falso").2 = false := by
  constructor
  · exact (C6_is_correct_iff "Resposta: Falso" "Falso").1.mp (by decide)
  · exact (C6_is_correct_iff "tanto faz" "Falso").2.1 (by decide)

/-! ## Metrics aggregator (src/src/reports/generator.py)

Python dicts preserve insertion order, so the grouping tables of
_metrics_by_file and _metrics_by_title are modelled as association lists
in first-seen key order.  Float accuracy ratios are modelled as exact
rationals (the spec treats accuracy as the rational correct/total). -/

/-- Per-group slice of the metrics snapshot: total, correct, accuracy. -/
structure GroupStats where
  total : Nat
  correct : Nat
  accuracy : ℚ
deriving DecidableEq

/-- One iteration of the grouping loop: create the key entry on first
sight (at the end of the table), then bump total and, when the result is
correct, the correct counter. -/
def updateGroup (k : String) (c : Bool) :
    List (String × Nat × Nat) → List (String × Nat × Nat)
  | [] => [(k, 1, if c then 1 else 0)]
  | (k0, t, cor) :: rest =>
    if k = k0 then (k0, t + 1, if c then cor + 1 else cor) :: rest
    else (k0, t, cor) :: updateGroup k c rest

/-- The first grouping loop over all results. -/
def groupCounts (key : EvaluationResult → String)
    (results : List EvaluationResult) : List (String × Nat × Nat) :=
  results.foldl (fun acc r => updateGroup (key r) r.correta acc) []

/-- The second loop: attach accuracy = correct / total, 0 on an empty
group. -/
def finalizeGroups (l : List (String × Nat × Nat)) : List (String × GroupStats) :=
  l.map (fun e =>
    (e.1, ⟨e.2.1, e.2.2, if e.2.1 > 0 then (e.2.2 : ℚ) / (e.2.1 : ℚ) else 0⟩))

/-- _metrics_by_file / _metrics_by_title (they differ only in the key). -/
def metricsBy (key : EvaluationResult → String)
    (results : List EvaluationResult) : List (String × GroupStats) :=
  finalizeGroups (groupCounts key results)

/-- The no-answer test of calculate_metrics:
r.pred is None or r.pred == "". -/
def isNoAnswer (r : EvaluationResult) : Bool :=
  match r.pred with
  | none => true
  | some p => p == ""

/-- The metrics snapshot.  The grouped breakdowns are Options because the
empty-result early return of calculate_metrics omits those keys. -/
structure Metrics where
  total : Nat
  acertos : Nat
  erros : Nat
  acuracia : ℚ
  sem_resposta : Nat
  por_arquivo : Option (List (String × GroupStats))
  por_titulo : Option (List (String × GroupStats))
deriving DecidableEq

/-- ReportGenerator.calculate_metrics. -/
def calculate_metrics (results : List EvaluationResult) : Metrics :=
  if results.length = 0 then
    { total := 0, acertos := 0, erros := 0, acuracia := 0, sem_resposta := 0,
      por_arquivo := none, por_titulo := none }
  else
    { total := results.length,
      acertos := results.countP (fun r => r.correta),
      erros := results.length - results.countP (fun r => r.correta),
      acuracia := (results.countP (fun r => r.correta) : ℚ) / (results.length : ℚ),
      sem_resposta := results.countP isNoAnswer,
      por_arquivo := some (metricsBy (fun r => r.arquivo) results),
      por_titulo := some (metricsBy (fun r => r.titulo) results) }

/-- Lookup in the grouping table. -/
def findGroup (k : String) : List (String × Nat × Nat) → Option (Nat × Nat)
  | [] => none
  | (k0, t, c) :: rest => if k = k0 then some (t, c) else findGroup k rest

/-- Keys of a grouping table, in order. -/
def keysOf (l : List (String × Nat × Nat)) : List String :=
  l.map (fun e => e.1)

theorem findGroup_updateGroup (k k1 : String) (c : Bool) :
    ∀ acc : List (String × Nat × Nat),
      findGroup k (updateGroup k1 c acc) =
        if k = k1 then
          match findGroup k acc with
          | none => some (1, if c then 1 else 0)
          | some (t, cor) => some (t + 1, if c then cor + 1 else cor)
        else findGroup k acc
  | [] => by
      by_cases h : k = k1 <;> simp [updateGroup, findGroup, h]
  | (k0, t0, c0) :: rest => by
      by_cases h1 : k1 = k0
      · subst h1
        by_cases h : k = k1 <;> simp [updateGroup, findGroup, h]
      · by_cases h : k = k0
        · subst h
          rw [if_neg (by exact fun hh => h1 hh.symm)]
          simp [updateGroup, findGroup, h1, if_neg (Ne.symm h1)]
        · have ih := findGroup_updateGroup k k1 c rest
          simp [updateGroup, findGroup, h1, h, ih]

theorem keysOf_updateGroup (k : String) (c : Bool) :
    ∀ acc : List (String × Nat × Nat),
      keysOf (updateGroup k c acc) =
        if k ∈ keysOf acc then keysOf acc else keysOf acc ++ [k]
  | [] => by simp [updateGroup, keysOf]
  | (k0, t0, c0) :: rest => by
      by_cases h : k = k0
      · subst h
        simp [updateGroup, keysOf]
      · have ih := keysOf_updateGroup k c rest
        simp only [updateGroup, if_neg h, keysOf, List.map_cons]
        have hmem : (k ∈ keysOf ((k0, t0, c0) :: rest)) = (k ∈ keysOf rest) := by
          simp [keysOf, h]
        by_cases h2 : k ∈ keysOf rest
        · simp only [keysOf] at h2 ih ⊢
          simp [h2, h] at ih ⊢
          exact ih
        · simp only [keysOf] at h2 ih ⊢
          simp [h2, h] at ih ⊢
          exact ih

theorem nodup_updateGroup (k : String) (c : Bool)
    (acc : List (String × Nat × Nat)) (h : (keysOf acc).Nodup) :
    (keysOf (updateGroup k c acc)).Nodup := by
  rw [keysOf_updateGroup]
  by_cases hm : k ∈ keysOf acc
  · rw [if_pos hm]; exact h
  · rw [if_neg hm]
    rw [List.nodup_append]
    exact ⟨h, List.nodup_singleton k, by simpa using hm⟩

theorem groupCounts_fold_find (key : EvaluationResult → String) :
    ∀ (results : List EvaluationResult) (acc : List (String × Nat × Nat)) (k : String),
      findGroup k (results.foldl (fun a r => updateGroup (key r) r.correta a) acc) =
        match findGroup k acc with
        | some (t, c) =>
            some (t + results.countP (fun r => key r == k),
                  c + results.countP (fun r => key r == k && r.correta))
        | none =>
            if k ∈ results.map key then
              some (results.countP (fun r => key r == k),
                    results.countP (fun r => key r == k && r.correta))
            else none
  | [], acc, k => by
      cases h : findGroup k acc with
      | none => simp [h]
      | some tc =>
          obtain ⟨t, c⟩ := tc
          simp [h]
  | r :: rs, acc, k => by
      have ih := groupCounts_fold_find key rs (updateGroup (key r) r.correta acc) k
      have hstep : (r :: rs).foldl (fun a x => updateGroup (key x) x.correta a) acc
          = rs.foldl (fun a x => updateGroup (key x) x.correta a)
              (updateGroup (key r) r.correta acc) := rfl
      rw [hstep, ih, findGroup_updateGroup]
      by_cases hk : k = key r
      · subst hk
        rw [if_pos rfl]
        cases h : findGroup (key r) acc with
        | none =>
            simp only [h]
            cases hc : r.correta <;>
              simp [List.countP_cons, hc] <;> omega
        | some tc =>
            obtain ⟨t, c⟩ := tc
            simp only [h]
            cases hc : r.correta <;>
              simp [List.countP_cons, hc] <;> omega
      · rw [if_neg hk]
        have hbeq : (key r == k) = false := by
          simp only [beq_eq_false_iff_ne, ne_eq]
          exact fun hh => hk hh.symm
        cases h : findGroup k acc with
        | none =>
            simp only [h]
            simp [List.countP_cons, hbeq, hk, List.mem_cons]
        | some tc =>
            obtain ⟨t, c⟩ := tc
            simp only [h]
            simp [List.countP_cons, hbeq]

theorem findGroup_groupCounts (key : EvaluationResult → String)
    (results : List EvaluationResult) (k : String) :
    findGroup k (groupCounts key results) =
      if k ∈ results.map key then
        some (results.countP (fun r => key r == k),
              results.countP (fun r => key r == k && r.correta))
      else none := by
  unfold groupCounts
  rw [groupCounts_fold_find]
  simp [findGroup]

theorem groupCounts_nodup_aux (key : EvaluationResult → String) :
    ∀ (results : List EvaluationResult) (acc : List (String × Nat × Nat)),
      (keysOf acc).Nodup →
      (keysOf (results.foldl (fun a r => updateGroup (key r) r.correta a) acc)).Nodup
  | [], _, h => h
  | r :: rs, acc, h =>
      groupCounts_nodup_aux key rs _ (nodup_updateGroup (key r) r.correta acc h)

theorem groupCounts_nodup (key : EvaluationResult → String)
    (results : List EvaluationResult) : (keysOf (groupCounts key results)).Nodup :=
  groupCounts_nodup_aux key results [] (by simp [keysOf])

theorem mem_keysOf (k : String) (t c : Nat) (l : List (String × Nat × Nat))
    (h : (k, t, c) ∈ l) : k ∈ keysOf l :=
  List.mem_map.mpr ⟨(k, t, c), h, rfl⟩

theorem mem_iff_findGroup :
    ∀ (l : List (String × Nat × Nat)), (keysOf l).Nodup →
      ∀ (k : String) (t c : Nat), (k, t, c) ∈ l ↔ findGroup k l = some (t, c)
  | [], _, k, t, c => by simp [findGroup]
  | (k0, t0, c0) :: rest, h, k, t, c => by
      have hnd : (keysOf rest).Nodup := by
        simp only [keysOf, List.map_cons] at h
        exact h.of_cons
      have hnot : k0 ∉ keysOf rest := by
        simp only [keysOf, List.map_cons, List.nodup_cons] at h
        exact h.1
      by_cases hk : k = k0
      · subst hk
        constructor
        · intro hm
          rcases List.mem_cons.mp hm with he | hm2
          · injection he with h1 h2
            injection h2 with h3 h4
            rw [findGroup, if_pos rfl, h3, h4]
          · exact absurd (mem_keysOf k t c rest hm2) hnot
        · intro hf
          rw [findGroup, if_pos rfl] at hf
          injection hf with hf
          injection hf with h1 h2
          exact List.mem_cons.mpr (Or.inl (by rw [h1, h2]))
      · rw [findGroup, if_neg hk]
        rw [← mem_iff_findGroup rest hnd k t c]
        constructor
        · intro hm
          rcases List.mem_cons.mp hm with he | hm2
          · exact absurd (congrArg Prod.fst he) hk
          · exact hm2
        · intro hm
          exact List.mem_cons.mpr (Or.inr hm)

/-- The declarative contract of a grouped breakdown for a given key: keys
are distinct, a group exists exactly for the key values occurring in the
results, and each group carries the count of its results, the count of its
correct results, and accuracy correct/total (0 would be used for an empty
group, but every present group is non-empty). -/
def groupSpec (key : EvaluationResult → String) (results : List EvaluationResult)
    (g : List (String × GroupStats)) : Prop :=
  (g.map Prod.fst).Nodup ∧
  (∀ k : String, k ∈ results.map key ↔ ∃ s, (k, s) ∈ g) ∧
  (∀ k s, (k, s) ∈ g →
    s.total = results.countP (fun r => key r == k) ∧
    s.correct = results.countP (fun r => key r == k && r.correta) ∧
    0 < s.total ∧
    s.accuracy = (s.correct : ℚ) / (s.total : ℚ))

theorem metricsBy_groupSpec (key : EvaluationResult → String)
    (results : List EvaluationResult) :
    groupSpec key results (metricsBy key results) := by
  have hnd := groupCounts_nodup key results
  have hkeys : (metricsBy key results).map Prod.fst = keysOf (groupCounts key results) := by
    unfold metricsBy finalizeGroups keysOf
    rw [List.map_map]
    rfl
  refine ⟨by rw [hkeys]; exact hnd, ?_, ?_⟩
  · intro k
    constructor
    · intro hm
      have hf := findGroup_groupCounts key results k
      rw [if_pos hm] at hf
      have hmem := (mem_iff_findGroup (groupCounts key results) hnd k _ _).mpr hf
      refine ⟨⟨results.countP (fun r => key r == k),
        results.countP (fun r => key r == k && r.correta),
        if results.countP (fun r => key r == k) > 0 then
          ((results.countP (fun r => key r == k && r.correta) : ℚ) /
            (results.countP (fun r => key r == k) : ℚ))
        else 0⟩, ?_⟩
      unfold metricsBy finalizeGroups
      exact List.mem_map.mpr ⟨_, hmem, rfl⟩
    · rintro ⟨s, hs⟩
      unfold metricsBy finalizeGroups at hs
      rcases List.mem_map.mp hs with ⟨e, he, heq⟩
      obtain ⟨ke, te, ce⟩ := e
      injection heq with h1 h2
      subst h1
      have hf := (mem_iff_findGroup (groupCounts key results) hnd ke te ce).mp he
      rw [findGroup_groupCounts] at hf
      by_cases hm : ke ∈ results.map key
      · exact hm
      · rw [if_neg hm] at hf
        exact absurd hf (by simp)
  · intro k s hs
    unfold metricsBy finalizeGroups at hs
    rcases List.mem_map.mp hs with ⟨e, he, heq⟩
    obtain ⟨ke, te, ce⟩ := e
    injection heq with h1 h2
    subst h1
    subst h2
    have hf := (mem_iff_findGroup (groupCounts key results) hnd ke te ce).mp he
    rw [findGroup_groupCounts] at hf
    by_cases hm : ke ∈ results.map key
    · rw [if_pos hm] at hf
      injection hf with hf
      injection hf with h3 h4
      have hpos : 0 < results.countP (fun r => key r == ke) := by
        rcases List.mem_map.mp hm with ⟨r, hr, hkr⟩
        exact List.countP_pos_iff.mpr ⟨r, hr, by simp [hkr]⟩
      subst h3
      subst h4
      exact ⟨rfl, rfl, hpos, by simp [hpos]⟩
    · rw [if_neg hm] at hf
      exact absurd hf (by simp)

/-- C7 counterexample: for the empty result sequence calculate_metrics
returns early with only the scalar fields and omits the two grouped
breakdowns (the por_arquivo / por_titulo keys are absent from the returned
dict), so the claim that the computation returns two grouped breakdowns
for every result sequence fails at the empty sequence. -/
theorem C7_empty_metrics_counterexample :
    (calculate_metrics []).por_arquivo = none ∧
    (calculate_metrics []).por_titulo = none := by
  exact ⟨rfl, rfl⟩

/-- C7 (amended): for the empty result sequence the metrics snapshot holds
total 0, correct 0, errors 0, accuracy 0 and no-answer 0 with the two
breakdowns omitted; for every non-empty result sequence the snapshot holds
total = number of results, correct = number with is_correct true, errors =
total - correct, accuracy = correct/total, no-answer = number of results
whose prediction is Unknown or empty, and the two grouped breakdowns
(keyed by arquivo and titulo under string equality, empty-string keys
being ordinary groups) in which every group's total and correct count its
own results and its accuracy is correct/total (0 in place of a division by
zero for an empty group). -/
theorem C7_metrics (results : List EvaluationResult) :
    (results = [] →
      calculate_metrics results = ⟨0, 0, 0, 0, 0, none, none⟩) ∧
    (results ≠ [] →
      (calculate_metrics results).total = results.length ∧
      (calculate_metrics results).acertos = results.countP (fun r => r.correta) ∧
      (calculate_metrics results).erros =
        results.length - results.countP (fun r => r.correta) ∧
      (calculate_metrics results).acuracia =
        (results.countP (fun r => r.correta) : ℚ) / (results.length : ℚ) ∧
      (calculate_metrics results).sem_resposta = results.countP isNoAnswer ∧
      ∃ ga gt, (calculate_metrics results).por_arquivo = some ga ∧
        (calculate_metrics results).por_titulo = some gt ∧
        groupSpec (fun r => r.arquivo) results ga ∧
        groupSpec (fun r => r.titulo) results gt) := by
  constructor
  · intro h
    subst h
    rfl
  · intro hne
    have hlen : ¬ results.length = 0 := by
      simpa [List.length_eq_zero] using hne
    unfold calculate_metrics
    rw [if_neg hlen]
    refine ⟨rfl, rfl, rfl, rfl, rfl,
      metricsBy (fun r => r.arquivo) results,
      metricsBy (fun r => r.titulo) results, rfl, rfl,
      metricsBy_groupSpec (fun r => r.arquivo) results,
      metricsBy_groupSpec (fun r => r.titulo) results⟩

/-- Two concrete results (one correct, one Unknown with an empty-string
arquivo key) for instantiating C7_metrics. -/
def wResults : List EvaluationResult :=
  [⟨"a", "t", 0, "q", "Verdadeiro", some "Verdadeiro", true, "Verdadeiro"⟩,
   ⟨"", "t2", 1, "q2", "Falso", none, false, "x"⟩]

/-- Closed instantiation of C7_metrics on wResults. -/
theorem C7_metrics_witness :
    (calculate_metrics wResults).total = 2 ∧
    (calculate_metrics wResults).acertos = 1 ∧
    (calculate_metrics wResults).erros = 1 ∧
    (calculate_metrics wResults).sem_resposta = 1 := by
  have h := (C7_metrics wResults).2 (by simp [wResults])
  refine ⟨?_, ?_, ?_, ?_⟩
  · rw [h.1]; decide
  · rw [h.2.1]; decide
  · rw [h.2.2.1]; decide
  · rw [h.2.2.2.2.1]; decide

/-! ## Result serialization (src/src/reports/generator.py,
EvaluationResult.to_dict) -/

/-- ASCII model of the whitespace stripped by Python str.strip (Python
also strips some Unicode spaces). -/
def isPySpace (c : Char) : Bool :=
  c == ' ' || c == '\t' || c == '\n' || c == '\r' ||
  c == '\x0b' || c == '\x0c'

/-- Python str.strip(): drop whitespace from both ends. -/
def pyStrip (s : String) : String :=
  ⟨((s.data.dropWhile isPySpace).reverse.dropWhile isPySpace).reverse⟩

/-- pergunta.replace with a newline replaced by a space. -/
def replaceNewlineSpace (s : String) : String :=
  ⟨s.data.map (fun c => if c == '\n' then ' ' else c)⟩

/-- resposta_bruta.replace with a newline replaced by the literal
two-character backslash-n escape. -/
def escapeNewlines (s : String) : String :=
  ⟨concatMap (fun c => if c == '\n' then ['\\', 'n'] else [c]) s.data⟩

/-- One CSV row of the result file, every field already a string. -/
structure Row where
  arquivo : String
  titulo : String
  idx_local : String
  pergunta : String
  esperado : String
  pred : String
  correta : String
  resposta_bruta : String
deriving DecidableEq

/-- EvaluationResult.to_dict. -/
def to_dict (r : EvaluationResult) : Row :=
  { arquivo := r.arquivo,
    titulo := r.titulo,
    idx_local := toString r.idx_local,
    pergunta := pyStrip (replaceNewlineSpace r.pergunta),
    esperado := r.esperado,
    pred := match r.pred with
            | none => ""
            | some p => p,
    correta := if r.correta then "1" else "0",
    resposta_bruta := escapeNewlines r.resposta_bruta }

theorem replaceNewlineSpace_no_newline (s : String) :
    ∀ c ∈ (replaceNewlineSpace s).data, c ≠ '\n' := by
  intro c hc
  unfold replaceNewlineSpace at hc
  rcases List.mem_map.mp hc with ⟨c0, _, hmap⟩
  by_cases h0 : c0 = '\n'
  · subst hmap
    simp [h0]
  · subst hmap
    simp [h0]

theorem pyStrip_mem (s : String) (c : Char) (hc : c ∈ (pyStrip s).data) :
    c ∈ s.data := by
  unfold pyStrip at hc
  simp only [List.mem_reverse] at hc
  have h1 := (List.dropWhile_sublist isPySpace).subset hc
  simp only [List.mem_reverse] at h1
  exact (List.dropWhile_sublist isPySpace).subset h1

theorem escapeNewlines_no_newline (s : String) :
    ∀ c ∈ (escapeNewlines s).data, c ≠ '\n' := by
  unfold escapeNewlines
  show ∀ c ∈ concatMap _ s.data, c ≠ '\n'
  induction s.data with
  | nil => intro c hc; simp [concatMap] at hc
  | cons c0 rest ih =>
      intro c hc
      simp only [concatMap, List.mem_append] at hc
      rcases hc with hc | hc
      · by_cases h0 : c0 = '\n'
        · simp [h0] at hc
          rcases hc with hc | hc <;> subst hc <;> decide
        · simp [h0] at hc
          subst hc
          exact h0
      · exact ih c hc

/-- C9 counterexample: to_dict also strips leading and trailing
whitespace from pergunta (Python .strip()), so the serialized pergunta is
not always the question text with newlines replaced by spaces: a question
with a leading space loses it even though it contains no newline. -/
theorem C9_strip_counterexample :
    (to_dict ⟨"a", "t", 0, " q", "Verdadeiro", some "Verdadeiro", true, "ok"⟩).pergunta
      = "q" ∧
    replaceNewlineSpace " q" = " q" ∧
    (to_dict ⟨"a", "t", 0, " q", "Verdadeiro", some "Verdadeiro", true, "ok"⟩).pergunta
      ≠ replaceNewlineSpace " q" := by
  refine ⟨by decide, by decide, by decide⟩

/-- C9 (amended): the CSV row maps pergunta to the question text with each
newline replaced by a single space and leading/trailing whitespace
stripped (so no newline survives); resposta_bruta to the raw response with
each newline replaced by the literal two-character backslash-n escape (no
newline survives); esperado to the literal expected token; pred to the
predicted token, the empty string exactly when the prediction is Unknown
or empty; and correta to the string 1 when is_correct and 0 otherwise. -/
theorem C9_serialization (r : EvaluationResult) :
    (to_dict r).pergunta = pyStrip (replaceNewlineSpace r.pergunta) ∧
    (∀ c ∈ (to_dict r).pergunta.data, c ≠ '\n') ∧
    (to_dict r).resposta_bruta = escapeNewlines r.resposta_bruta ∧
    (∀ c ∈ (to_dict r).resposta_bruta.data, c ≠ '\n') ∧
    (to_dict r).esperado = r.esperado ∧
    ((to_dict r).pred = "" ↔ (r.pred = none ∨ r.pred = some "")) ∧
    (∀ p, r.pred = some p → (to_dict r).pred = p) ∧
    (to_dict r).correta = (if r.correta then "1" else "0") ∧
    (to_dict r).idx_local = toString r.idx_local ∧
    (to_dict r).arquivo = r.arquivo ∧
    (to_dict r).titulo = r.titulo := by
  refine ⟨rfl, ?_, rfl, escapeNewlines_no_newline r.resposta_bruta, rfl, ?_, ?_,
    rfl, rfl, rfl, rfl⟩
  · intro c hc
    exact replaceNewlineSpace_no_newline r.pergunta c (pyStrip_mem _ c hc)
  · cases hp : r.pred with
    | none => simp [to_dict, hp]
    | some p => simp [to_dict, hp]
  · intro p hp
    simp [to_dict, hp]

/-- Closed instantiation of C9_serialization on a result with a newline in
the question and the raw response. -/
theorem C9_serialization_witness :
    (to_dict ⟨"a", "t", 3, "linha1\nlinha2", "Falso", none, false, "x\ny"⟩).pergunta
      = "linha1 linha2" ∧
    (to_dict ⟨"a", "t", 3, "linha1\nlinha2", "Falso", none, false, "x\ny"⟩).resposta_bruta
      = "x\\ny" ∧
    (to_dict ⟨"a", "t", 3, "linha1\nlinha2", "Falso", none, false, "x\ny"⟩).pred = "" ∧
    (to_dict ⟨"a", "t", 3, "linha1\nlinha2", "Falso", none, false, "x\ny"⟩).correta = "0" := by
  have h := C9_serialization ⟨"a", "t", 3, "linha1\nlinha2", "Falso", none, false, "x\ny"⟩
  refine ⟨?_, ?_, ?_, ?_⟩
  · rw [h.1]; decide
  · rw [h.2.2.1]; decide
  · exact h.2.2.2.2.2.1.mpr (Or.inl rfl)
  · rw [h.2.2.2.2.2.2.2.1]
    decide

/-! ## Dataset failure handling (C8, C10) -/

/-- C8 counterexample: a block lacking the perguntas field is NOT a fatal
DatasetMalformed condition — bloco.get with a default turns it into an
empty question list, so loading succeeds and the block simply contributes
no items. -/
theorem C8_malformed_tolerated_counterexample :
    load_dataset (fun _ => some [⟨some "a", some "t", none⟩]) "bench.json" =
      .ok [] := by
  rfl

/-- C8 (amended): the loader raises the file-not-found condition when the
dataset path cannot be located — fatal, before any item is produced or any
provider is called; but a block lacking the question-list field is NOT an
error: it is read as an empty question list and contributes zero items
(loading succeeds). -/
theorem C8_dataset_errors (fs : String → Option (List Bloco)) (path : String)
    (data : List Bloco) (b : Bloco) :
    (fs path = none →
      load_dataset fs path = .error ("Arquivo não encontrado: " ++ path)) ∧
    (fs path = some data → load_dataset fs path = .ok (load_items data)) ∧
    (b.perguntas = none → blockItems b = []) := by
  refine ⟨?_, ?_, ?_⟩
  · intro h
    simp [load_dataset, h]
  · intro h
    simp [load_dataset, h]
  · intro h
    simp [blockItems, h, pairItems]

/-- Closed instantiation of C8_dataset_errors: a missing file aborts the
load with no items, a present file loads. -/
theorem C8_dataset_errors_witness :
    load_dataset (fun _ => none) "bench.json" =
      .error ("Arquivo não encontrado: " ++ "bench.json") ∧
    blockItems ⟨some "a", some "t", none⟩ = [] := by
  constructor
  · exact (C8_dataset_errors (fun _ => none) "bench.json" [] ⟨none, none, none⟩).1 rfl
  · exact (C8_dataset_errors (fun _ => none) "bench.json" []
      ⟨some "a", some "t", none⟩).2.2 rfl

/-- C10: a block missing the arquivo or titulo field does not make loading
fail; every item produced from it carries the empty string for the missing
field, and such items flow into aggregation under the empty string as an
ordinary group key. -/
theorem C10_missing_optional_fields (oa ot : Option String) (qs : List String)
    (fs : String → Option (List Bloco)) (path : String) (data : List Bloco) :
    (∀ item ∈ blockItems ⟨oa, ot, some qs⟩,
      (oa = none → item.arquivo = "") ∧ (ot = none → item.titulo = "")) ∧
    (fs path = some data → load_dataset fs path = .ok (load_items data)) ∧
    (∀ results : List EvaluationResult, results ≠ [] →
      (∀ r ∈ results, r.arquivo = "") →
      ∃ s, ("", s) ∈ metricsBy (fun r => r.arquivo) results) := by
  refine ⟨?_, ?_, ?_⟩
  · intro item hitem
    have hfields := pairItems_fields (oa.getD "") (ot.getD "") qs 0 item hitem
    constructor
    · intro ha
      rw [hfields.1, ha]
      rfl
    · intro ht
      rw [hfields.2, ht]
      rfl
  · intro h
    simp [load_dataset, h]
  · intro results hne hall
    have hspec := metricsBy_groupSpec (fun r => r.arquivo) results
    apply (hspec.2.1 "").mp
    cases results with
    | nil => exact absurd rfl hne
    | cons r0 rest =>
        have h0 : r0.arquivo = "" := hall r0 (List.mem_cons_self r0 rest)
        exact List.mem_map.mpr ⟨r0, List.mem_cons_self r0 rest, h0⟩

/-- Closed instantiation of C10_missing_optional_fields: a block with both
optional fields missing yields items with empty-string keys, and a result
with an empty-string arquivo forms an ordinary group. -/
theorem C10_missing_optional_fields_witness :
    ((blockItems ⟨none, none, some ["q1", "q2"]⟩).all
      (fun item => item.arquivo == "" && item.titulo == "")) = true ∧
    (∃ s, ("", s) ∈ metricsBy (fun r => r.arquivo)
      [⟨"", "t2", 1, "q2", "Falso", none, false, "x"⟩]) := by
  constructor
  · apply List.all_eq_true.mpr
    intro item hitem
    have h := (C10_missing_optional_fields none none ["q1", "q2"]
      (fun _ => none) "p" []).1 item hitem
    simp [h.1 rfl, h.2 rfl]
  · exact (C10_missing_optional_fields none none ["q1", "q2"]
      (fun _ => none) "p" []).2.2
      [⟨"", "t2", 1, "q2", "Falso", none, false, "x"⟩]
      (by simp) (by intro r hr; simp at hr; rw [hr])
